import Mathlib

/-!
Shallow embedding of the routing decision engine of
`src/postfix-mx-smart-router.py`: the weighted round-robin scheduler
(`Servers`), the rule table (`tdrGo` / `Config.test_domain_rules`), the
decision orchestrator (`parseGet`, `process_request_email`,
`get_next_server`, `process_request`) and the MX cache (`get_mx_records`,
`cleanup_cache`).

Modelling conventions.  The only float operations the engine performs are
the two divisions `percent / percent_sum` and `mails_sent / total_mails`
and strict comparisons between their results; they are modelled exactly by
formal fractions (`Frac`) of naturals compared by cross-multiplication
(all denominators produced by the code are positive, so this is the
rational order).  `time.time()` is an integer clock; Python exceptions
(`ZeroDivisionError` raised by `x / 0` and `x % 0`, `IndexError`) by
`Option` / `Except` error values; the DNS resolver is a function
parameter (for `get_mx_records` a partial resolver where `none` stands
for a resolver exception).  The `False`-or-string values the router
threads around are modelled by `Option String` with `none` for Python
`False`, and `pyTruthy` reproduces Python truthiness (the empty string is
falsy).  `str.lower` and the regex class `\s` are modelled on the ASCII
range.  Registries are built fresh per group exactly as in the source, so
counters are independent between registries.
-/

/-- Python truthiness of the `False` / string values used by the router:
`False` (here `none`) and the empty string are falsy. -/
def pyTruthy : Option String → Bool
  | none => false
  | some s => !(s == "")

/-- Python `needle in hay` on strings: substring test. -/
def substrB (needle hay : String) : Bool := decide (needle.data <:+: hay.data)

/-- A quotient of two naturals, kept unreduced: the exact value of the two
float divisions the engine performs (`percent / percent_sum` in
`Servers.__init__`, `mails_sent / total_mails` in `Servers.calc_perc`).
Every denominator the code produces is positive, so the comparison below
is the rational order. -/
structure Frac where
  num : ℕ
  den : ℕ
  deriving DecidableEq, Repr

/-- Exact `x < y` on fractions with positive denominators, by
cross-multiplication. -/
def Frac.blt (x y : Frac) : Bool := decide (x.num * y.den < y.num * x.den)

/-- `Server.__init__`: name, address, the configured `perc` (an integer
share), the derived `perc_target`, the running `perc_current` and the
`mails_sent` counter. -/
structure Server where
  name : String
  address : String
  percent : ℕ
  perc_target : Frac
  perc_current : Frac
  mails_sent : ℕ
  deriving DecidableEq, Repr

instance : Inhabited Server := ⟨⟨"", "", 0, ⟨0, 1⟩, ⟨0, 1⟩, 0⟩⟩

/-- A `Servers` registry: the ordered server list plus the round-robin
cursor `self.current`, initially `-1`. -/
structure Servers where
  servers : List Server
  current : ℤ
  deriving DecidableEq, Repr

/-- Bump a server's `mails_sent` (the `chosen_server.mails_sent += 1`
mutation of the aliased list slot). -/
def bumpSent (sv : Server) : Server := { sv with mails_sent := sv.mails_sent + 1 }

/-- `self.servers[i]` for an in-range nonnegative index (used with indices
produced by the scan, which are always in range). -/
def svAt (s : Servers) (i : ℕ) : Server := s.servers.getD i default

/-- `Servers.__init__` from the configured `(name, address, perc)` list
(the `perc = 100` defaulting for a missing `perc` key has already been
applied).  When the list is nonempty every `perc_target` is set to
`perc / percent_sum`; a zero `percent_sum` then reproduces Python's
`ZeroDivisionError`. -/
def Servers.init (l : List (String × String × ℕ)) : Except String Servers :=
  let psum := (l.map (fun p => p.2.2)).sum
  if l.length ≠ 0 ∧ psum = 0 then .error "ZeroDivisionError"
  else .ok
    { servers := l.map (fun p =>
        { name := p.1, address := p.2.1, percent := p.2.2,
          perc_target := ⟨p.2.2, psum⟩, perc_current := ⟨0, 1⟩, mails_sent := 0 }),
      current := -1 }

/-- `total_mails` as summed by `Servers.calc_perc`. -/
def Servers.total (s : Servers) : ℕ := (s.servers.map (fun sv => sv.mails_sent)).sum

/-- `Servers.calc_perc`: when at least one mail has been sent, refresh
every `perc_current` to `mails_sent / total_mails`; otherwise leave the
stored values untouched. -/
def Servers.calc_perc (s : Servers) : Servers :=
  if 0 < s.total then
    { s with servers := s.servers.map (fun sv =>
        { sv with perc_current := ⟨sv.mails_sent, s.total⟩ }) }
  else s

/-- `Servers.get`: first server whose name equals `name`, else Python
`False` (here `none`). -/
def Servers.get (s : Servers) (name : String) : Option Server :=
  s.servers.find? (fun sv => sv.name == name)

/-- Index of the first server satisfying `p` (the position of the aliased
object a successful `Servers.get` hands to `get_next`, whose in-place
mutation is modelled by updating that slot). -/
def pyFindIdx (p : Server → Bool) : List Server → Option ℕ
  | [] => none
  | a :: l => if p a then some 0 else (pyFindIdx p l).map (fun i => i + 1)

/-- The scan of `Servers.get_next`: starting at index `start` (already
reduced modulo the length), walk at most `fuel` positions circularly and
return the first index whose `perc_current` is strictly below its
`perc_target`. -/
def findFrom (l : List Server) (start : ℕ) : ℕ → Option ℕ
  | 0 => none
  | fuel + 1 =>
    if Frac.blt (l.getD start default).perc_current (l.getD start default).perc_target then
      some start
    else findFrom l ((start + 1) % l.length) fuel

/-- Python list indexing `self.servers[c]` with negative-index wrap-around,
`none` on an `IndexError`. -/
def pyIdx (c : ℤ) (n : ℕ) : Option ℕ :=
  if 0 ≤ c then (if c < (n : ℤ) then some c.toNat else none)
  else (if -(n : ℤ) ≤ c then some (c + (n : ℤ)).toNat else none)

/-- The post-increment scan start `(self.current + 1) % len(self.servers)`. -/
def Servers.scanStart (s : Servers) : ℕ :=
  ((s.current + 1) % (s.servers.length : ℤ)).toNat

/-- `Servers.get_next`.  A truthy identifier naming a server pins that
server: it is bumped in place and the cursor is untouched.  Otherwise the
scan runs on the `calc_perc`-refreshed list from the post-increment start;
on success the cursor moves to the found index; after a full fruitless
circle the server at the stale `self.current` (Python negative indexing
included) is bumped and the cursor stays.  `none` models the
`ZeroDivisionError` of `% 0` on an empty registry and the `IndexError` of
an out-of-range stale cursor. -/
def Servers.get_next (s : Servers) (id : Option String) : Option (Server × Servers) :=
  match (if pyTruthy id then pyFindIdx (fun sv => sv.name == id.getD "") s.servers else none) with
  | some i =>
    some (bumpSent (svAt s i), { s with servers := s.servers.set i (bumpSent (svAt s i)) })
  | none =>
    if s.servers.length = 0 then none
    else
      match findFrom s.calc_perc.servers s.scanStart s.servers.length with
      | some j =>
        some (bumpSent (svAt s.calc_perc j),
          { servers := s.calc_perc.servers.set j (bumpSent (svAt s.calc_perc j)),
            current := (j : ℤ) })
      | none =>
        match pyIdx s.current s.servers.length with
        | some c =>
          some (bumpSent (svAt s.calc_perc c),
            { servers := s.calc_perc.servers.set c (bumpSent (svAt s.calc_perc c)),
              current := s.current })
        | none => none

/-- One `get_next` call viewed as a state transformer (an erroring call
leaves the state unchanged). -/
def stepId (s : Servers) (id : Option String) : Servers :=
  match s.get_next id with
  | some (_, s1) => s1
  | none => s

/-- `m` consecutive unpinned `get_next` calls. -/
def iterU (s : Servers) : ℕ → Servers
  | 0 => s
  | m + 1 => stepId (iterU s m) none

/-- A sequence of `get_next` calls with arbitrary identifiers. -/
def runCalls (s : Servers) (ids : List (Option String)) : Servers :=
  ids.foldl stepId s

/-- The loop body of `Config.test_domain_rules`, carrying the running
`default` accumulator.  For each `(key, value)` rule in declaration order:
remember the value under the key `default`, then break on the first of the
three checks (exact equality with the email, key substring of the MX
domain, key substring of the email); at the end — or when the matched
value is falsy — substitute the accumulated default. -/
def tdrGo (email domain : String) : List (String × String) → Option String → Option String × Option String
  | [], dacc => (dacc, dacc)
  | (k, v) :: rest, dacc =>
    let dacc1 := if k = "default" then some v else dacc
    if email = k then ((if v = "" then dacc1 else some v), dacc1)
    else if substrB k domain then ((if v = "" then dacc1 else some v), dacc1)
    else if substrB k email then ((if v = "" then dacc1 else some v), dacc1)
    else tdrGo email domain rest dacc1

/-- The configuration objects the orchestrator consults: the ordered
`sender_rules`, the full-fleet registry (`servers.names`) and the
per-group registries. -/
structure Config where
  sender_rules : List (String × String)
  fleet : Servers
  server_groups : List (String × Servers)
  deriving DecidableEq, Repr

/-- `Config.test_domain_rules`. -/
def Config.test_domain_rules (cfg : Config) (email domain : String) :
    Option String × Option String :=
  tdrGo email domain cfg.sender_rules none

/-- Which registry `Config.get_server_group` resolves to. -/
inductive RegRef
  | fleet
  | group (g : String)
  deriving DecidableEq, Repr

/-- Group lookup by name. -/
def Config.lookup_group (cfg : Config) (g : String) : Option Servers :=
  (cfg.server_groups.find? (fun p => p.1 == g)).map (fun p => p.2)

/-- `Config.get_server_group`: a truthy identifier naming a declared group
selects that group's registry, everything else falls back to the fleet. -/
def Config.get_server_group (cfg : Config) (id : Option String) : RegRef :=
  if pyTruthy id then
    match id with
    | some g => if (cfg.lookup_group g).isSome then .group g else .fleet
    | none => .fleet
  else .fleet

/-- Read the registry a `RegRef` denotes. -/
def Config.getReg (cfg : Config) : RegRef → Servers
  | .fleet => cfg.fleet
  | .group g => (cfg.lookup_group g).getD cfg.fleet

/-- Write back the registry a `RegRef` denotes (the in-place mutation of
the shared `Servers` object). -/
def Config.setReg (cfg : Config) : RegRef → Servers → Config
  | .fleet, s => { cfg with fleet := s }
  | .group g, s =>
    { cfg with server_groups := cfg.server_groups.map (fun p => if p.1 == g then (p.1, s) else p) }

/-- The ASCII fragment of the regex class `\s`. -/
def isPySpace (c : Char) : Bool :=
  c == ' ' || c == '\t' || c == '\n' || c == '\r' || c == '\x0b' || c == '\x0c'

/-- ASCII `str.lower`. -/
def lowerStr (s : String) : String := String.mk (s.data.map Char.toLower)

/-- Python `email.split('@')` on the character list. -/
def splitAtSign : List Char → List (List Char)
  | [] => [[]]
  | c :: rest =>
    if c = '@' then [] :: splitAtSign rest
    else
      match splitAtSign rest with
      | [] => [[c]]
      | p :: ps => (c :: p) :: ps

/-- `re.match(r'^get\s+([^@]+@([^@]+))$', request, re.IGNORECASE)` followed
by `.group(1).lower()`.  After the case-insensitive literal `get`, the
remainder must carry at least one leading whitespace, exactly one `@` with
at least two characters before it (one for `\s+`, one for `[^@]+`) and at
least one character after it.  The greedy `\s+` consumes
`min(spaceRun, atPos - 1)` characters, the rest is group 1. -/
def parseGet (request : String) : Option String :=
  match request.data with
  | g :: e :: t :: rest =>
    if g.toLower == 'g' && e.toLower == 'e' && t.toLower == 't' then
      let p := (rest.takeWhile isPySpace).length
      if p = 0 then none
      else if (rest.filter (fun c => c == '@')).length ≠ 1 then none
      else
        match rest.findIdx? (fun c => c == '@') with
        | some a =>
          if 2 ≤ a ∧ a + 2 ≤ rest.length then
            some (lowerStr (String.mk (rest.drop (min p (a - 1)))))
          else none
        | none => none
    else none
  | _ => none

/-- The MX-record loop of `process_request_email`: run the rule table on
each resolved hostname in order, stopping at the first truthy result; the
last `(result, default)` pair (initially `(False, False)`) is returned. -/
def loopMx (rules : List (String × String)) (email : String)
    (acc : Option String × Option String) : List String → Option String × Option String
  | [] => acc
  | mx :: rest =>
    let r := tdrGo email mx rules none
    if pyTruthy r.1 then r else loopMx rules email r rest

/-- `process_request_email`, with the composition of `get_mx_records` and
the live resolver abstracted into `resolve` (ordered hostname list, empty
on any resolution failure). -/
def process_request_email (cfg : Config) (resolve : String → List String)
    (request : String) : Option String × Option String :=
  match parseGet request with
  | none => (none, none)
  | some email =>
    let parts := splitAtSign email.data
    if parts.length = 2 then
      loopMx cfg.sender_rules email (none, none) (resolve (String.mk (parts.getD 1 [])))
    else (none, none)

/-- `get_next_server`: early `False` (`NO_RESULT`) only when the resolved
identifier is the literal `NO RESULT` and the default is `NO RESULT` or
falsy; otherwise resolve the group and ask the scheduler, the chosen
registry being written back.  `.error` propagates a scheduler exception. -/
def get_next_server (cfg : Config) (resolve : String → List String)
    (request : String) : Except String (Option String × Config) :=
  let rd := process_request_email cfg resolve request
  if rd.1 = some "NO RESULT" ∧ (rd.2 = some "NO RESULT" ∨ pyTruthy rd.2 = false) then
    .ok (none, cfg)
  else
    let ref := cfg.get_server_group rd.1
    match (cfg.getReg ref).get_next rd.1 with
    | none => .error "ZeroDivisionError or IndexError"
    | some (sv, s1) => .ok (some sv.address, cfg.setReg ref s1)

/-- `process_request` (response assembly, percent-encoding elided): the
literal probe `get *` and an unloaded configuration yield `500 NO RESULT`;
otherwise a falsy scheduler answer yields `500 NO RESULT` and a truthy one
`200 <address>`. -/
def process_request (cfg : Config) (resolve : String → List String)
    (request : String) : Except String ((ℕ × String) × Config) :=
  if request = "get *" then .ok ((500, "NO RESULT"), cfg)
  else if 0 < cfg.fleet.servers.length then
    match get_next_server cfg resolve request with
    | .error e => .error e
    | .ok (msg, cfg1) =>
      if pyTruthy msg then .ok ((200, msg.getD ""), cfg1)
      else .ok ((500, "NO RESULT"), cfg1)
  else .ok ((500, "NO RESULT"), cfg)

/-- The MX cache: association list `domain ↦ (fetch time, hostnames)`. -/
abbrev MxCache : Type := List (String × ℤ × List String)

/-- Python `domain in mx_cache` / `mx_cache[domain]`. -/
def mxLookup (cache : MxCache) (d : String) : Option (ℤ × List String) :=
  (cache.find? (fun ent => ent.1 == d)).map (fun ent => ent.2)

/-- Python `mx_cache[domain] = v`: overwrite or append. -/
def mxInsert (cache : MxCache) (d : String) (v : ℤ × List String) : MxCache :=
  if (cache.find? (fun ent => ent.1 == d)).isSome then
    cache.map (fun ent => if ent.1 == d then (d, v) else ent)
  else cache ++ [(d, v)]

/-- The fresh-lookup tail of `get_mx_records`: query the resolver
(`none` = `NXDOMAIN` / `NoAnswer` / `NoNameservers`, treated as an empty
record list) and cache the result — including a negative entry — only when
caching is enabled. -/
def mxFresh (resolve : String → Option (List String)) (now : ℤ) (cache : MxCache)
    (domain : String) (cache_ttl : ℤ) : (List String × Bool) × MxCache :=
  match resolve domain with
  | some recs => ((recs, false), if 0 < cache_ttl then mxInsert cache domain (now, recs) else cache)
  | none => (([], false), if 0 < cache_ttl then mxInsert cache domain (now, []) else cache)

/-- `get_mx_records(domain, cache_ttl)` over an explicit cache state and
clock. -/
def get_mx_records (resolve : String → Option (List String)) (now : ℤ) (cache : MxCache)
    (domain : String) (cache_ttl : ℤ) : (List String × Bool) × MxCache :=
  match (if 0 < cache_ttl then mxLookup cache domain else none) with
  | some ent =>
    if now - ent.1 < cache_ttl then ((ent.2, true), cache)
    else mxFresh resolve now cache domain cache_ttl
  | none => mxFresh resolve now cache domain cache_ttl

/-- `cleanup_cache(cache_ttl)`: disabled cache returns `0` untouched,
otherwise expired entries are removed and counted. -/
def cleanup_cache (now : ℤ) (cache : MxCache) (cache_ttl : ℤ) : ℕ × MxCache :=
  if cache_ttl ≤ 0 then (0, cache)
  else
    ((cache.filter (fun ent => cache_ttl ≤ now - ent.2.1)).length,
      cache.filter (fun ent => ¬ cache_ttl ≤ now - ent.2.1))

/-! ### Basic helper lemmas about the embedded operations -/

/-- Build a registry out of a concrete configuration list (used for
concrete instances, where `Servers.init` succeeds). -/
def regOf (l : List (String × String × ℕ)) : Servers :=
  match Servers.init l with
  | .ok s => s
  | .error _ => { servers := [], current := -1 }

theorem getD_set_self {l : List Server} {i : ℕ} (v : Server) (h : i < l.length) :
    (l.set i v).getD i default = v := by
  rw [List.getD_eq_getElem?_getD, List.getElem?_set]
  simp [h]

theorem getD_set_ne {l : List Server} {i j : ℕ} (v : Server) (h : i ≠ j) :
    (l.set i v).getD j default = l.getD j default := by
  rw [List.getD_eq_getElem?_getD, List.getElem?_set, if_neg h, ← List.getD_eq_getElem?_getD]

theorem calc_perc_length (s : Servers) : s.calc_perc.servers.length = s.servers.length := by
  unfold Servers.calc_perc
  split <;> simp

theorem calc_perc_current_eq (s : Servers) : s.calc_perc.current = s.current := by
  unfold Servers.calc_perc
  split <;> rfl

theorem svAt_calc_perc_target (s : Servers) (i : ℕ) :
    (svAt s.calc_perc i).perc_target = (svAt s i).perc_target := by
  unfold Servers.calc_perc svAt
  split
  · simp only [List.getD_eq_getElem?_getD, List.getElem?_map]
    cases h2 : s.servers[i]? <;> simp
  · rfl

theorem svAt_calc_perc_mails (s : Servers) (i : ℕ) :
    (svAt s.calc_perc i).mails_sent = (svAt s i).mails_sent := by
  unfold Servers.calc_perc svAt
  split
  · simp only [List.getD_eq_getElem?_getD, List.getElem?_map]
    cases h2 : s.servers[i]? <;> simp
  · rfl

theorem svAt_calc_perc_current_of_pos (s : Servers) (h : 0 < s.total) (i : ℕ)
    (hi : i < s.servers.length) :
    (svAt s.calc_perc i).perc_current = ⟨(svAt s i).mails_sent, s.total⟩ := by
  unfold Servers.calc_perc svAt
  rw [if_pos h]
  simp only [List.getD_eq_getElem?_getD, List.getElem?_map, List.getElem?_eq_getElem hi]
  simp [List.getD_eq_getElem?_getD, List.getElem?_eq_getElem hi]

theorem total_calc_perc (s : Servers) : s.calc_perc.total = s.total := by
  unfold Servers.calc_perc Servers.total
  split
  · rw [List.map_map]
    congr 1
  · rfl

theorem sum_mails_set_bump (l : List Server) :
    ∀ i : ℕ, i < l.length →
      ((l.set i (bumpSent (l.getD i default))).map (fun sv => sv.mails_sent)).sum
        = (l.map (fun sv => sv.mails_sent)).sum + 1 := by
  induction l with
  | nil => intro i hi; simp at hi
  | cons a tl ih =>
    intro i hi
    cases i with
    | zero => simp [bumpSent]; omega
    | succ i =>
      have h2 := ih i (by simpa using hi)
      have h3 : (a :: tl).set (i + 1) (bumpSent ((a :: tl).getD (i + 1) default))
          = a :: tl.set i (bumpSent (tl.getD i default)) := by
        simp [List.getD_cons_succ]
      rw [h3, List.map_cons, List.sum_cons, List.map_cons, List.sum_cons, h2]
      omega

/-! ### C10: cache disabled frame property -/

/-- C10: with caching disabled (`cache_ttl ≤ 0`), `get_mx_records` neither
reads nor writes the cache — the answer is the fresh resolver result
(empty on failure), `from_cache` is false and the cache map is returned
unchanged — and `cleanup_cache` returns 0 removing nothing. -/
theorem C10_cache_disabled_frame (resolve : String → Option (List String)) (now : ℤ)
    (cache : MxCache) (domain : String) (cache_ttl : ℤ) (h : cache_ttl ≤ 0) :
    get_mx_records resolve now cache domain cache_ttl
      = (((resolve domain).getD [], false), cache)
    ∧ cleanup_cache now cache cache_ttl = (0, cache) := by
  have h1 : ¬ (0 < cache_ttl) := by omega
  constructor
  · unfold get_mx_records mxFresh
    rw [if_neg h1]
    cases hres : resolve domain <;> simp [h1]
  · unfold cleanup_cache
    rw [if_pos h]

/-- C10 witness at a concrete input. -/
theorem C10_witness :
    get_mx_records (fun _ => some ["mx.example.com"]) 5 [("old.com", 1, [])] "example.com" 0
      = ((["mx.example.com"], false), [("old.com", 1, [])])
    ∧ cleanup_cache 5 [("old.com", 1, [])] 0 = (0, [("old.com", 1, [])]) :=
  C10_cache_disabled_frame (fun _ => some ["mx.example.com"]) 5 [("old.com", 1, [])]
    "example.com" 0 (by omega)

/-! ### C7: zero-sum shares and empty groups -/

/-- C7 counterexample: constructing a registry whose single server has
share 0 does not complete; it raises `ZeroDivisionError` (the claim says
construction always completes). -/
theorem C7_counterexample :
    Servers.init [("a", "addr", 0)] = .error "ZeroDivisionError" := rfl

/-- C7 (amended): a nonempty server list whose shares sum to 0 makes
`Servers.__init__` raise `ZeroDivisionError`; an empty registry is
constructed without error, but any unpinned `get_next` on it then fails
with `ZeroDivisionError` (surfaced as a per-connection error response),
rather than degrading to `NO_RESULT`. -/
theorem C7_zero_shares (l : List (String × String × ℕ)) (s : Servers)
    (hl : l ≠ []) (hsum : (l.map (fun p => p.2.2)).sum = 0) (hs : s.servers = []) :
    Servers.init l = .error "ZeroDivisionError" ∧ s.get_next none = none := by
  constructor
  · have h1 : l.length ≠ 0 := by
      intro h
      exact hl (List.length_eq_zero.mp h)
    simp [Servers.init, h1, hsum]
  · unfold Servers.get_next
    simp [pyTruthy, hs]

/-- C7 witness at concrete inputs. -/
theorem C7_witness :
    Servers.init [("a", "addr", 0), ("b", "addr2", 0)] = .error "ZeroDivisionError"
    ∧ Servers.get_next { servers := [], current := -1 } none = none :=
  C7_zero_shares [("a", "addr", 0), ("b", "addr2", 0)] { servers := [], current := -1 }
    (by decide) (by decide) rfl

/-! ### C6: single-rule match semantics -/

/-- The per-rule match test of `Config.test_domain_rules`, in the source's
check order: exact equality with the (already lowercased) sender email,
then key-substring-of-MX-hostname, then key-substring-of-email. -/
def ruleMatch (email domain key : String) : Bool :=
  if email = key then true
  else if substrB key domain then true
  else if substrB key email then true
  else false

/-- An empty registry (placeholder for configs whose registries are not
exercised). -/
def emptyReg : Servers := { servers := [], current := -1 }

/-- The first rule matched by `ruleMatch` whose target is truthy
determines the result of the rule-table walk, whatever the running
default accumulator. -/
theorem tdrGo_find (email domain : String) (rules : List (String × String)) :
    ∀ (dacc : Option String) (k v : String),
      rules.find? (fun r => ruleMatch email domain r.1) = some (k, v) → v ≠ "" →
      (tdrGo email domain rules dacc).1 = some v := by
  induction rules with
  | nil => intro dacc k v h _; simp at h
  | cons hd tl ih =>
    intro dacc k v h hv
    obtain ⟨k0, v0⟩ := hd
    rw [List.find?_cons] at h
    cases hm : ruleMatch email domain (k0, v0).1 with
    | true =>
      simp only [hm] at h
      obtain ⟨hk, hv0⟩ : k0 = k ∧ v0 = v := by
        constructor <;> injection h with h1 <;> · injection h1
      subst hk
      subst hv0
      by_cases h1 : email = k0
      · simp [tdrGo, h1, hv]
      · by_cases h2 : substrB k0 domain = true
        · simp [tdrGo, h1, h2, hv]
        · by_cases h3 : substrB k0 email = true
          · simp [tdrGo, h1, h2, h3, hv]
          · exfalso
            simp [ruleMatch, h1, h2, h3] at hm
    | false =>
      simp only [hm] at h
      have h1 : ¬ email = k0 := by
        intro h1
        simp [ruleMatch, h1] at hm
      have h2 : ¬ substrB k0 domain = true := by
        intro h2
        simp [ruleMatch, h1, h2] at hm
      have h3 : ¬ substrB k0 email = true := by
        intro h3
        simp [ruleMatch, h1, h2, h3] at hm
      simp only [tdrGo, if_neg h1, if_neg h2, if_neg h3]
      exact ih _ k v h hv

/-- C6 counterexample: check (1) is exact string comparison against the
lowercased email, so the rule key `John@x.com` (containing uppercase)
never matches the email `john@x.com`, while the all-lowercase key does —
refuting the claimed case-insensitive equality on the rule key. -/
theorem C6_counterexample :
    Config.test_domain_rules ⟨[("John@x.com", "g")], emptyReg, []⟩ "john@x.com" "mx.example"
      = (none, none)
    ∧ Config.test_domain_rules ⟨[("john@x.com", "g")], emptyReg, []⟩ "john@x.com" "mx.example"
      = (some "g", none) := by decide

/-- C6 (amended): a rule matches exactly when one of the three checks of
`ruleMatch` succeeds — (1) the *lowercased* sender email equals the rule
key by exact comparison (a key containing uppercase letters never matches
via this check), else (2) key-substring-of-MX-hostname, else (3)
key-substring-of-email; rules are tried in declaration order and the
first match with a truthy target determines the returned target, later
rules never being consulted. -/
theorem C6_rule_match_semantics (cfg : Config) (email domain k v : String)
    (hfind : cfg.sender_rules.find? (fun r => ruleMatch email domain r.1) = some (k, v))
    (hv : v ≠ "") :
    (cfg.test_domain_rules email domain).1 = some v :=
  tdrGo_find email domain cfg.sender_rules none k v hfind hv

/-- C6 witness at a concrete input. -/
theorem C6_witness :
    (Config.test_domain_rules ⟨[("x.com", "g2")], emptyReg, []⟩ "u@x.com" "mxhost").1
      = some "g2" :=
  C6_rule_match_semantics ⟨[("x.com", "g2")], emptyReg, []⟩ "u@x.com" "mxhost" "x.com" "g2"
    (by decide) (by decide)

/-! ### C3: the `NO RESULT` sentinel -/

/-- Configuration for the C3 counterexample: a truthy default different
from `NO RESULT` plus a rule whose target is the sentinel. -/
def cfgC3 : Config :=
  ⟨[("default", "g"), ("spam.x.com", "NO RESULT")],
    regOf [("f1", "relay:f1", 100)], [("g", regOf [("g1", "relay:g1", 100)])]⟩

/-- Resolver for the C3 counterexample. -/
def resolveC3 : String → List String :=
  fun d => if d = "spam.x.com" then ["mx.spam.x.com"] else []

/-- C3 counterexample: the rule table resolves the sentinel `NO RESULT`,
yet — because a truthy default `g ≠ NO RESULT` is configured — the
response is a fleet server address and that server's counter is bumped,
not an immediate `NO_RESULT` without scheduler involvement. -/
theorem C3_counterexample :
    process_request_email cfgC3 resolveC3 "get u@spam.x.com" = (some "NO RESULT", some "g")
    ∧ (get_next_server cfgC3 resolveC3 "get u@spam.x.com").toOption.map
        (fun r => (r.1, r.2.fleet.servers.map (fun sv => sv.mails_sent)))
      = some (some "relay:f1", [1]) := by decide

/-- C3 (amended): the resolved sentinel `NO RESULT` yields an immediate
`NO_RESULT` without consulting the scheduler (state unchanged) exactly
when, in addition, the accompanying default is itself `NO RESULT` or
falsy; otherwise the sentinel is passed on to group resolution and the
scheduler runs. -/
theorem C3_no_result_conditional (cfg : Config) (resolve : String → List String)
    (request : String) (d : Option String)
    (h : process_request_email cfg resolve request = (some "NO RESULT", d))
    (hd : d = some "NO RESULT" ∨ pyTruthy d = false) :
    get_next_server cfg resolve request = .ok (none, cfg) := by
  simp only [get_next_server, h]
  rw [if_pos]
  exact ⟨by trivial, hd⟩

/-- Configuration for the C3 witness: the default itself is the sentinel. -/
def cfgC3w : Config :=
  ⟨[("default", "NO RESULT"), ("spam.x.com", "NO RESULT")],
    regOf [("f1", "relay:f1", 100)], []⟩

/-- C3 witness at a concrete input. -/
theorem C3_witness :
    get_next_server cfgC3w resolveC3 "get u@spam.x.com" = .ok (none, cfgC3w) :=
  C3_no_result_conditional cfgC3w resolveC3 "get u@spam.x.com" (some "NO RESULT")
    (by decide) (Or.inl rfl)

/-! ### C2: per-hostname default substitution -/

/-- A truthy default accumulator keeps the rule-table result truthy, as
long as no later rule rebinds the `default` key. -/
theorem tdrGo_truthy_acc (email domain : String) (rules : List (String × String)) :
    ∀ dacc : Option String, pyTruthy dacc = true → (∀ p ∈ rules, p.1 ≠ "default") →
      pyTruthy (tdrGo email domain rules dacc).1 = true := by
  induction rules with
  | nil => intro dacc hdacc _; exact hdacc
  | cons hd tl ih =>
    intro dacc hdacc hnd
    obtain ⟨k0, v0⟩ := hd
    have hk0 : ¬ k0 = "default" := hnd (k0, v0) (List.mem_cons_self _ _)
    by_cases h1 : email = k0
    · by_cases hv : v0 = ""
      · simp only [tdrGo, if_neg hk0, if_pos h1, if_pos hv]
        exact hdacc
      · simp [tdrGo, if_neg hk0, h1, hv, pyTruthy]
    · by_cases h2 : substrB k0 domain = true
      · by_cases hv : v0 = ""
        · simp only [tdrGo, if_neg hk0, if_neg h1, if_pos h2, if_pos hv]
          exact hdacc
        · simp [tdrGo, if_neg hk0, h1, h2, hv, pyTruthy]
      · by_cases h3 : substrB k0 email = true
        · by_cases hv : v0 = ""
          · simp only [tdrGo, if_neg hk0, if_neg h1, if_neg h2, if_pos h3, if_pos hv]
            exact hdacc
          · simp [tdrGo, if_neg hk0, h1, h2, h3, hv, pyTruthy]
        · simp only [tdrGo, if_neg hk0, if_neg h1, if_neg h2, if_neg h3]
          exact ih dacc hdacc (fun p hp => hnd p (List.mem_cons_of_mem _ hp))

/-- With a nonempty `default` first (and no other `default` rule), the
rule table is truthy on every hostname: either a rule matches with a
truthy target, a rule matches with a falsy target and the default is
substituted, or nothing matches and the default is substituted. -/
theorem tdrGo_default_first_truthy (email domain d : String) (rest : List (String × String))
    (hd : d ≠ "") (hrest : ∀ p ∈ rest, p.1 ≠ "default") :
    pyTruthy (tdrGo email domain (("default", d) :: rest) none).1 = true := by
  by_cases h1 : email = "default"
  · by_cases hv : d = ""
    · exact absurd hv hd
    · simp [tdrGo, h1, hv, hd, pyTruthy]
  · by_cases h2 : substrB "default" domain = true
    · by_cases hv : d = ""
      · exact absurd hv hd
      · simp [tdrGo, h1, h2, hv, hd, pyTruthy]
    · by_cases h3 : substrB "default" email = true
      · by_cases hv : d = ""
        · exact absurd hv hd
        · simp [tdrGo, h1, h2, h3, hv, hd, pyTruthy]
      · have ht := tdrGo_truthy_acc email domain rest (some d) (by simp [pyTruthy, hd]) hrest
        simpa [tdrGo, h1, h2, h3] using ht

/-- Configuration for the C2 counterexample: a truthy default and a rule
that only matches the second resolved hostname. -/
def cfgC2 : Config :=
  ⟨[("default", "dgrp"), ("special", "sgrp")], regOf [("f1", "rf", 100)], []⟩

/-- Resolver for the C2 counterexample: two MX hostnames, the second of
which carries the `special` substring. -/
def resolveC2 : String → List String :=
  fun d => if d = "x.com" then ["mx1.x.com", "special.x.com"] else []

/-- C2 counterexample: the `special` rule would match the second hostname
(`sgrp`), but because the default is substituted already inside the
per-hostname rule test, the loop stops at the first hostname with the
default's target `dgrp` — the later-hostname rule does not win over the
default. -/
theorem C2_counterexample :
    process_request_email cfgC2 resolveC2 "get u@x.com" = (some "dgrp", some "dgrp")
    ∧ (cfgC2.test_domain_rules "u@x.com" "special.x.com").1 = some "sgrp" := by decide

/-- C2 (amended): default substitution happens per hostname inside the
rule test, and the MX loop stops at the first hostname whose substituted
result is truthy; hence with a nonempty `default` declared first (and no
other `default` rule) the loop always stops at the very first hostname,
and later hostnames are never consulted. -/
theorem C2_default_stops_first_hostname (cfg : Config) (email : String) (d : String)
    (rest : List (String × String)) (hrules : cfg.sender_rules = ("default", d) :: rest)
    (hd : d ≠ "") (hrest : ∀ p ∈ rest, p.1 ≠ "default") (mx : String) (mxs : List String) :
    loopMx cfg.sender_rules email (none, none) (mx :: mxs)
      = cfg.test_domain_rules email mx := by
  have ht : pyTruthy (tdrGo email mx cfg.sender_rules none).1 = true := by
    rw [hrules]
    exact tdrGo_default_first_truthy email mx d rest hd hrest
  simp [loopMx, Config.test_domain_rules, ht]

/-- C2 witness at a concrete input. -/
theorem C2_witness :
    loopMx cfgC2.sender_rules "u@x.com" (none, none) ["mx1.x.com", "special.x.com"]
      = cfgC2.test_domain_rules "u@x.com" "mx1.x.com" :=
  C2_default_stops_first_hostname cfgC2 "u@x.com" "dgrp" [("special", "sgrp")] rfl
    (by decide) (by decide) "mx1.x.com" ["special.x.com"]

/-! ### C9: direct server pinning -/

/-- `pyFindIdx` returns the index of the unique element satisfying `p`. -/
theorem pyFindIdx_eq_of_unique (p : Server → Bool) (l : List Server) :
    ∀ (i : ℕ) (hi : i < l.length), p (l.get ⟨i, hi⟩) = true →
      (∀ (j : ℕ) (hj : j < l.length), p (l.get ⟨j, hj⟩) = true → j = i) →
      pyFindIdx p l = some i := by
  induction l with
  | nil => intro i hi _ _; simp at hi
  | cons a tl ih =>
    intro i hi hp huniq
    cases i with
    | zero =>
      have hpa : p a = true := hp
      simp [pyFindIdx, hpa]
    | succ i =>
      have h0 : ¬ p a = true := by
        intro hpa
        have h00 := huniq 0 (by omega) hpa
        omega
      have hi2 : i < tl.length := by simpa using hi
      have hp2 : p (tl.get ⟨i, hi2⟩) = true := hp
      have huniq2 : ∀ (j : ℕ) (hj : j < tl.length), p (tl.get ⟨j, hj⟩) = true → j = i := by
        intro j hj hpj
        have h3 := huniq (j + 1) (by simpa using hj) hpj
        omega
      simp [pyFindIdx, h0, ih i hi2 hp2 huniq2]

/-- C9 (amended): pinning by the *nonempty* name of a server in a
registry with distinct names returns exactly that server bumped by one,
updates only its slot, and leaves the cursor unchanged, whatever the
fractions. -/
theorem C9_pin_by_name (s : Servers) (i : ℕ) (hi : i < s.servers.length)
    (hnodup : (s.servers.map (fun sv => sv.name)).Nodup)
    (hname : (s.servers.get ⟨i, hi⟩).name ≠ "") :
    s.get_next (some (s.servers.get ⟨i, hi⟩).name)
      = some (bumpSent (s.servers.get ⟨i, hi⟩),
          { s with servers := s.servers.set i (bumpSent (s.servers.get ⟨i, hi⟩)) }) := by
  have htr : pyTruthy (some (s.servers.get ⟨i, hi⟩).name) = true := by
    have h2 : (s.servers.get ⟨i, hi⟩).name ≠ "" := hname
    simp only [pyTruthy, Bool.not_eq_eq_eq_not, Bool.not_true, beq_eq_false_iff_ne, ne_eq]
    exact h2
  have hfind : pyFindIdx (fun sv => sv.name == (s.servers.get ⟨i, hi⟩).name) s.servers
      = some i := by
    apply pyFindIdx_eq_of_unique _ _ i hi
    · simp
    · intro j hj hpj
      rw [beq_iff_eq] at hpj
      have hj2 : j < (s.servers.map (fun sv => sv.name)).length := by simpa using hj
      have hi2 : i < (s.servers.map (fun sv => sv.name)).length := by simpa using hi
      have hmap : (s.servers.map (fun sv => sv.name)).get ⟨j, hj2⟩
          = (s.servers.map (fun sv => sv.name)).get ⟨i, hi2⟩ := by
        simpa using hpj
      rw [List.get_eq_getElem, List.get_eq_getElem] at hmap
      exact (List.Nodup.getElem_inj_iff hnodup).mp hmap
  have hat : svAt s i = s.servers.get ⟨i, hi⟩ := by
    unfold svAt
    exact List.getD_eq_getElem s.servers default hi
  unfold Servers.get_next
  rw [htr]
  simp only [if_true, Option.getD_some]
  rw [hfind]
  show some (bumpSent (svAt s i), { s with servers := s.servers.set i (bumpSent (svAt s i)) })
      = some (bumpSent (s.servers.get ⟨i, hi⟩),
          { s with servers := s.servers.set i (bumpSent (s.servers.get ⟨i, hi⟩)) })
  rw [hat]

/-- The registry of the C9 counterexample: a single server whose
configured name is the empty string. -/
def regE : Servers := regOf [("", "re", 100)]

/-- C9 counterexample: the identifier equal to the (empty) name of the
registry's server is falsy in Python, so `get_next` does not pin: it runs
the round-robin scan and moves the cursor from `-1` to `0`, refuting
"leaves the registry's round-robin cursor unchanged". -/
theorem C9_counterexample :
    regE.servers.map (fun sv => sv.name) = [""]
    ∧ regE.current = -1
    ∧ (regE.get_next (some "")).map (fun p => p.2.current) = some 0 := by decide

/-- A two-server equal-share registry for concrete instances. -/
def regAB : Servers := regOf [("a", "ra", 1), ("b", "rb", 1)]

/-- C9 witness at a concrete input. -/
theorem C9_witness :
    regAB.get_next (some (regAB.servers.get ⟨1, by decide⟩).name)
      = some (bumpSent (regAB.servers.get ⟨1, by decide⟩),
          { regAB with servers := regAB.servers.set 1 (bumpSent (regAB.servers.get ⟨1, by decide⟩)) }) :=
  C9_pin_by_name regAB 1 (by decide) (by decide) (by decide)

/-! ### C4: the full-circle fallback -/

/-- Evaluation of an unpinned `get_next` when the scan fails: bump the
server at the stale cursor, do not move the cursor. -/
theorem get_next_none_fallback (s : Servers) (hn : ¬ s.servers.length = 0) (c : ℕ)
    (hscan : findFrom s.calc_perc.servers s.scanStart s.servers.length = none)
    (hc : pyIdx s.current s.servers.length = some c) :
    s.get_next none
      = some (bumpSent (svAt s.calc_perc c),
          { servers := s.calc_perc.servers.set c (bumpSent (svAt s.calc_perc c)),
            current := s.current }) := by
  unfold Servers.get_next
  split
  · next i heq => simp [pyTruthy] at heq
  · rw [if_neg hn]
    split
    · next j heq =>
      rw [hscan] at heq
      simp at heq
    · split
      · next c2 heq =>
        rw [hc] at heq
        injection heq with heq2
        rw [heq2]
      · next heq =>
        rw [hc] at heq
        simp at heq

/-- Evaluation of an unpinned `get_next` when the scan succeeds at `j`:
bump the server at `j` and move the cursor there. -/
theorem get_next_none_scan (s : Servers) (hn : ¬ s.servers.length = 0) (j : ℕ)
    (hscan : findFrom s.calc_perc.servers s.scanStart s.servers.length = some j) :
    s.get_next none
      = some (bumpSent (svAt s.calc_perc j),
          { servers := s.calc_perc.servers.set j (bumpSent (svAt s.calc_perc j)),
            current := (j : ℤ) }) := by
  unfold Servers.get_next
  split
  · next i heq => simp [pyTruthy] at heq
  · rw [if_neg hn]
    split
    · next j2 heq =>
      rw [hscan] at heq
      injection heq with heq2
      rw [← heq2]
    · next heq =>
      rw [hscan] at heq
      simp at heq

/-- C4 (amended): when the circular scan finds no candidate, the chosen
server is the one at the *stale* cursor `self.current` (with Python
negative indexing, so the initial cursor `-1` designates the last server),
not the one at the post-increment starting index; the cursor is left
unchanged. -/
theorem C4_fallback_is_stale_cursor (s : Servers) (hn : ¬ s.servers.length = 0) (c : ℕ)
    (hscan : findFrom s.calc_perc.servers s.scanStart s.servers.length = none)
    (hc : pyIdx s.current s.servers.length = some c) :
    s.get_next none
      = some (bumpSent (svAt s.calc_perc c),
          { servers := s.calc_perc.servers.set c (bumpSent (svAt s.calc_perc c)),
            current := s.current }) :=
  get_next_none_fallback s hn c hscan hc

/-- A one-server registry for the C4 witness. -/
def regW : Servers := regOf [("w", "rw", 1)]

/-- C4 counterexample: after two calls on the equal-share two-server
registry both fractions sit exactly at target, the scan (starting at the
post-increment index 0, whose server is named `a`) finds nothing — yet the
call returns server `b`, not the server at the starting index. -/
theorem C4_counterexample :
    findFrom (iterU regAB 2).calc_perc.servers (iterU regAB 2).scanStart
        (iterU regAB 2).servers.length = none
    ∧ (iterU regAB 2).scanStart = 0
    ∧ ((iterU regAB 2).servers.map (fun sv => sv.name)).getD 0 "?" = "a"
    ∧ ((iterU regAB 2).get_next none).map (fun p => p.1.name) = some "b" := by decide

/-- C4 witness at a concrete input. -/
theorem C4_witness :
    (iterU regW 1).get_next none
      = some (bumpSent (svAt (iterU regW 1).calc_perc 0),
          { servers := (iterU regW 1).calc_perc.servers.set 0
              (bumpSent (svAt (iterU regW 1).calc_perc 0)),
            current := (iterU regW 1).current }) :=
  C4_fallback_is_stale_cursor (iterU regW 1) (by decide) 0 (by decide) (by decide)

/-! ### C1: requests that fail the grammar -/

/-- With a nonempty server list and an in-range cursor, an unpinned
`get_next` always succeeds (scan hit or fallback). -/
theorem get_next_none_isSome (s : Servers) (hne : ¬ s.servers.length = 0)
    (hlo : -1 ≤ s.current) (hhi : s.current < (s.servers.length : ℤ)) :
    (s.get_next none).isSome = true := by
  unfold Servers.get_next
  split
  · next i heq => simp [pyTruthy] at heq
  · rw [if_neg hne]
    split
    · rfl
    · have hp : ∃ c, pyIdx s.current s.servers.length = some c := by
        unfold pyIdx
        by_cases h0 : 0 ≤ s.current
        · rw [if_pos h0, if_pos hhi]
          exact ⟨_, rfl⟩
        · rw [if_neg h0, if_pos (by omega)]
          exact ⟨_, rfl⟩
      obtain ⟨c, hc⟩ := hp
      rw [hc]
      rfl

/-- C1 (amended): a request failing the `get <email>` grammar is not
answered `NO_RESULT` when servers are configured: `process_request_email`
returns `(False, False)`, the sentinel early-exit does not trigger
(`False ≠ 'NO RESULT'`), and `get_next_server` falls through to the
full-fleet scheduler, returning the chosen fleet server's address (and
bumping its counter). -/
theorem C1_parse_failure_uses_fleet (cfg : Config) (resolve : String → List String)
    (request : String) (hp : parseGet request = none)
    (hne : ¬ cfg.fleet.servers.length = 0)
    (hlo : -1 ≤ cfg.fleet.current) (hhi : cfg.fleet.current < (cfg.fleet.servers.length : ℤ)) :
    (cfg.fleet.get_next none).isSome = true
    ∧ get_next_server cfg resolve request
      = (match cfg.fleet.get_next none with
         | some p => .ok (some p.1.address, { cfg with fleet := p.2 })
         | none => .error "ZeroDivisionError or IndexError") := by
  have hsome := get_next_none_isSome cfg.fleet hne hlo hhi
  refine ⟨hsome, ?_⟩
  have hpre : process_request_email cfg resolve request = (none, none) := by
    unfold process_request_email
    rw [hp]
  simp only [get_next_server, hpre]
  rw [if_neg (by simp)]
  have hreg : cfg.getReg (cfg.get_server_group none) = cfg.fleet := rfl
  rw [hreg]
  obtain ⟨⟨sv, s1⟩, hgn⟩ := Option.isSome_iff_exists.mp hsome
  rw [hgn]
  rfl

/-- Configuration for the C1 instances. -/
def cfgC1 : Config := ⟨[("default", "dgrp")], regOf [("mx1", "relay:one", 100)], []⟩

/-- C1 counterexample: the request `hello` does not match the grammar, yet
with one configured server the response is `200 relay:one` — a server
address, not `NO_RESULT` — and that server's `sentCount` rises to 1. -/
theorem C1_counterexample :
    parseGet "hello" = none
    ∧ (process_request cfgC1 (fun _ => []) "hello").toOption.map
        (fun r => (r.1, r.2.fleet.servers.map (fun sv => sv.mails_sent)))
      = some ((200, "relay:one"), [1]) := by decide

/-- C1 witness at a concrete input. -/
theorem C1_witness :
    ((cfgC1.fleet.get_next none).isSome = true)
    ∧ get_next_server cfgC1 (fun _ => []) "hello"
      = (match cfgC1.fleet.get_next none with
         | some p => .ok (some p.1.address, { cfgC1 with fleet := p.2 })
         | none => .error "ZeroDivisionError or IndexError") :=
  C1_parse_failure_uses_fleet cfgC1 (fun _ => []) "hello" (by decide) (by decide)
    (by decide) (by decide)

/-! ### C8: zero-share servers and the round-robin -/

/-- The cursor invariant maintained by every call: either no scan has ever
succeeded (cursor still `-1`), or the cursor is in range and points at a
server with a positive target numerator (positive share). -/
def Servers.Inv (s : Servers) : Prop :=
  s.current = -1 ∨ (0 ≤ s.current ∧ s.current < (s.servers.length : ℤ) ∧
    0 < (svAt s s.current.toNat).perc_target.num)

theorem pyFindIdx_lt (p : Server → Bool) (l : List Server) :
    ∀ i : ℕ, pyFindIdx p l = some i → i < l.length := by
  induction l with
  | nil => intro i h; simp [pyFindIdx] at h
  | cons a tl ih =>
    intro i h
    by_cases hpa : p a = true
    · simp [pyFindIdx, hpa] at h
      simp [List.length_cons]
      omega
    · simp only [pyFindIdx, if_neg hpa] at h
      cases hfi : pyFindIdx p tl with
      | none => rw [hfi] at h; simp at h
      | some i2 =>
        rw [hfi] at h
        simp at h
        have := ih i2 hfi
        simp [List.length_cons]
        omega

theorem findFrom_some_blt (l : List Server) (fuel : ℕ) :
    ∀ start j : ℕ, findFrom l start fuel = some j →
      Frac.blt (l.getD j default).perc_current (l.getD j default).perc_target = true := by
  induction fuel with
  | zero => intro start j h; simp [findFrom] at h
  | succ fuel ih =>
    intro start j h
    simp only [findFrom] at h
    by_cases hc : Frac.blt (l.getD start default).perc_current
        (l.getD start default).perc_target = true
    · rw [if_pos hc] at h
      injection h with h2
      rw [← h2]
      exact hc
    · rw [if_neg hc] at h
      exact ih _ j h

theorem findFrom_some_lt (l : List Server) (fuel : ℕ) :
    ∀ start j : ℕ, start < l.length → findFrom l start fuel = some j → j < l.length := by
  induction fuel with
  | zero => intro start j _ h; simp [findFrom] at h
  | succ fuel ih =>
    intro start j hs h
    simp only [findFrom] at h
    by_cases hc : Frac.blt (l.getD start default).perc_current
        (l.getD start default).perc_target = true
    · rw [if_pos hc] at h
      injection h with h2
      omega
    · rw [if_neg hc] at h
      exact ih _ j (Nat.mod_lt _ (by omega)) h

theorem scanStart_lt (s : Servers) (h : ¬ s.servers.length = 0) :
    s.scanStart < s.servers.length := by
  unfold Servers.scanStart
  have h1 : (s.servers.length : ℤ) ≠ 0 := by
    exact_mod_cast h
  have h2 : (0 : ℤ) ≤ (s.current + 1) % (s.servers.length : ℤ) :=
    Int.emod_nonneg _ h1
  have h3 : (s.current + 1) % (s.servers.length : ℤ) < (s.servers.length : ℤ) :=
    Int.emod_lt_of_pos _ (by omega)
  omega

/-- A fresh registry satisfies the cursor invariant. -/
theorem Inv_init (l : List (String × String × ℕ)) (reg : Servers)
    (h : Servers.init l = .ok reg) : reg.Inv := by
  simp only [Servers.init] at h
  split at h
  · simp at h
  · injection h with h2
    rw [← h2]
    exact Or.inl rfl

/-- Every call — pinned or not — preserves the cursor invariant. -/
theorem Inv_step (s : Servers) (id : Option String) (h : s.Inv) : (stepId s id).Inv := by
  unfold stepId
  cases hgn : s.get_next id with
  | none => exact h
  | some p =>
    obtain ⟨sv, s1⟩ := p
    show s1.Inv
    unfold Servers.get_next at hgn
    split at hgn
    · next i heq =>
      have hilt : i < s.servers.length := by
        by_cases htr : pyTruthy id = true
        · rw [if_pos htr] at heq
          exact pyFindIdx_lt _ _ i heq
        · rw [if_neg htr] at heq
          simp at heq
      simp only [Option.some.injEq, Prod.mk.injEq] at hgn
      obtain ⟨h3, h4⟩ := hgn
      rw [← h4]
      unfold Servers.Inv at h ⊢
      rcases h with hL | ⟨h0, h1, h2t⟩
      · exact Or.inl hL
      · right
        refine ⟨h0, by simpa using h1, ?_⟩
        unfold svAt at h2t ⊢
        by_cases hic : i = s.current.toNat
        · rw [← hic] at h2t ⊢
          rw [getD_set_self _ hilt]
          unfold bumpSent
          exact h2t
        · rw [getD_set_ne _ hic]
          exact h2t
    · by_cases hlen : s.servers.length = 0
      · rw [if_pos hlen] at hgn
        simp at hgn
      · rw [if_neg hlen] at hgn
        split at hgn
        · next j heqf =>
          simp only [Option.some.injEq, Prod.mk.injEq] at hgn
          obtain ⟨h3, h4⟩ := hgn
          rw [← h4]
          have hstart : s.scanStart < s.calc_perc.servers.length := by
            rw [calc_perc_length]
            exact scanStart_lt s hlen
          have hjlen : j < s.servers.length := by
            have := findFrom_some_lt s.calc_perc.servers s.servers.length s.scanStart j
              hstart heqf
            rwa [calc_perc_length] at this
          unfold Servers.Inv
          right
          have hjc : j < s.calc_perc.servers.length := by rwa [calc_perc_length]
          refine ⟨Int.natCast_nonneg j, ?_, ?_⟩
          · show (j : ℤ)
              < ((s.calc_perc.servers.set j (bumpSent (svAt s.calc_perc j))).length : ℤ)
            rw [List.length_set, calc_perc_length]
            exact_mod_cast hjlen
          · have hblt := findFrom_some_blt s.calc_perc.servers s.servers.length
              s.scanStart j heqf
            unfold Frac.blt at hblt
            rw [decide_eq_true_eq] at hblt
            have hpos : 0 < (s.calc_perc.servers.getD j default).perc_target.num := by
              by_contra hz
              have hz2 : (s.calc_perc.servers.getD j default).perc_target.num = 0 := by omega
              rw [hz2] at hblt
              simp at hblt
            show 0 < ((s.calc_perc.servers.set j (bumpSent (svAt s.calc_perc j))).getD
                ((j : ℤ)).toNat default).perc_target.num
            rw [show ((j : ℤ)).toNat = j by omega, getD_set_self _ hjc]
            exact hpos
        · split at hgn
          · next c heqc =>
            simp only [Option.some.injEq, Prod.mk.injEq] at hgn
            obtain ⟨h3, h4⟩ := hgn
            rw [← h4]
            unfold Servers.Inv at h ⊢
            rcases h with hL | ⟨h0, h1, h2t⟩
            · exact Or.inl hL
            · right
              have hc2 : c = s.current.toNat := by
                unfold pyIdx at heqc
                rw [if_pos h0, if_pos h1] at heqc
                injection heqc with h5
                omega
              have hclt : c < s.calc_perc.servers.length := by
                rw [calc_perc_length]
                omega
              refine ⟨h0, ?_, ?_⟩
              · show s.current
                  < ((s.calc_perc.servers.set c (bumpSent (svAt s.calc_perc c))).length : ℤ)
                rw [List.length_set, calc_perc_length]
                exact h1
              · show 0 < ((s.calc_perc.servers.set c (bumpSent (svAt s.calc_perc c))).getD
                    s.current.toNat default).perc_target.num
                rw [← hc2, getD_set_self _ hclt]
                show 0 < (svAt s.calc_perc c).perc_target.num
                rw [svAt_calc_perc_target, hc2]
                exact h2t
          · simp at hgn

/-- The fallback can hand out a zero-target server only from the initial
cursor, and then only the last server of the registry. -/
theorem get_next_zero_target (s : Servers) (sv : Server) (s1 : Servers) (h : s.Inv)
    (hgn : s.get_next none = some (sv, s1)) (h0 : sv.perc_target.num = 0) :
    s.current = -1
    ∧ findFrom s.calc_perc.servers s.scanStart s.servers.length = none
    ∧ sv = bumpSent (svAt s.calc_perc (s.servers.length - 1)) := by
  unfold Servers.get_next at hgn
  split at hgn
  · next i heq => simp [pyTruthy] at heq
  · by_cases hlen : s.servers.length = 0
    · rw [if_pos hlen] at hgn
      simp at hgn
    · rw [if_neg hlen] at hgn
      split at hgn
      · next j heqf =>
        exfalso
        simp only [Option.some.injEq, Prod.mk.injEq] at hgn
        obtain ⟨h3, _⟩ := hgn
        have hblt := findFrom_some_blt s.calc_perc.servers s.servers.length
          s.scanStart j heqf
        unfold Frac.blt at hblt
        rw [decide_eq_true_eq] at hblt
        have ht : sv.perc_target = (svAt s.calc_perc j).perc_target := by
          rw [← h3]
          rfl
        unfold svAt at ht
        rw [ht] at h0
        rw [h0] at hblt
        simp at hblt
      · next heqf =>
        split at hgn
        · next c heqc =>
          simp only [Option.some.injEq, Prod.mk.injEq] at hgn
          obtain ⟨h3, h4⟩ := hgn
          unfold Servers.Inv at h
          rcases h with hL | ⟨hc0, hc1, hct⟩
          · have hc2 : c = s.servers.length - 1 := by
              unfold pyIdx at heqc
              rw [hL] at heqc
              rw [if_neg (by omega), if_pos (by omega)] at heqc
              injection heqc with h5
              omega
            refine ⟨hL, heqf, ?_⟩
            rw [← h3, hc2]
          · exfalso
            have hc2 : c = s.current.toNat := by
              unfold pyIdx at heqc
              rw [if_pos hc0, if_pos hc1] at heqc
              injection heqc with h5
              omega
            have ht : sv.perc_target = (svAt s.calc_perc c).perc_target := by
              rw [← h3]
              rfl
            rw [svAt_calc_perc_target] at ht
            rw [hc2] at ht
            rw [ht] at h0
            omega
        · simp at hgn

/-- The registry of the C8 instances: a positive-share server followed by
a zero-share server. -/
def regZ : Servers := regOf [("a", "ra", 100), ("z", "rz", 0)]

/-- C8 counterexample: on the registry `[a(share 100), z(share 0)]`, after
one pinned call on `a` the unpinned `get_next` returns the zero-share
server `z` (through the full-circle fallback with the cursor still at its
initial `-1`), refuting "never returned by an unpinned call". -/
theorem C8_counterexample :
    regZ.servers.map (fun sv => (sv.name, sv.percent)) = [("a", 100), ("z", 0)]
    ∧ ((runCalls regZ [some "a"]).get_next none).map
        (fun p => (p.1.name, p.1.percent, p.1.perc_target.num))
      = some ("z", 0, 0) := by decide

/-- C8 (amended): the scan itself never selects a zero-target server; an
unpinned `get_next` can return one only through the full-circle fallback
while the cursor is still at its initial `-1` — in which case the chosen
server is the registry's *last* — because the invariant `Servers.Inv`
(cursor `-1` or pointing at a positive-share server) holds for every
freshly built registry and is preserved by every call. -/
theorem C8_zero_share_only_initial_fallback :
    (∀ (l : List (String × String × ℕ)) (reg : Servers), Servers.init l = .ok reg → reg.Inv)
    ∧ (∀ (s : Servers) (id : Option String), s.Inv → (stepId s id).Inv)
    ∧ (∀ (l : List (String × String × ℕ)) (reg : Servers) (ids : List (Option String)),
        Servers.init l = .ok reg → (runCalls reg ids).Inv)
    ∧ (∀ (s : Servers) (sv : Server) (s1 : Servers), s.Inv →
        s.get_next none = some (sv, s1) → sv.perc_target.num = 0 →
        s.current = -1
        ∧ findFrom s.calc_perc.servers s.scanStart s.servers.length = none
        ∧ sv = bumpSent (svAt s.calc_perc (s.servers.length - 1))) := by
  have hrun : ∀ (ids : List (Option String)) (s : Servers), s.Inv → (runCalls s ids).Inv := by
    intro ids
    induction ids with
    | nil => intro s hs; exact hs
    | cons id rest ih => intro s hs; exact ih _ (Inv_step s id hs)
  exact ⟨Inv_init, Inv_step, fun l reg ids hinit => hrun ids reg (Inv_init l reg hinit),
    get_next_zero_target⟩

/-- C8 witness at a concrete input. -/
theorem C8_witness :
    (stepId regZ (some "a")).current = -1
    ∧ findFrom (stepId regZ (some "a")).calc_perc.servers (stepId regZ (some "a")).scanStart
        (stepId regZ (some "a")).servers.length = none
    ∧ bumpSent (svAt (stepId regZ (some "a")).calc_perc 1)
      = bumpSent (svAt (stepId regZ (some "a")).calc_perc
          ((stepId regZ (some "a")).servers.length - 1)) :=
  C8_zero_share_only_initial_fallback.2.2.2 (stepId regZ (some "a"))
    (bumpSent (svAt (stepId regZ (some "a")).calc_perc 1))
    { servers := (stepId regZ (some "a")).calc_perc.servers.set 1
        (bumpSent (svAt (stepId regZ (some "a")).calc_perc 1)),
      current := (stepId regZ (some "a")).current }
    (Or.inl (by decide)) (by decide) (by decide)

/-! ### C5: exact fairness for equal shares -/

theorem toNat_natCast_emod (a b : ℕ) : (((a : ℤ)) % (b : ℤ)).toNat = a % b := by
  rw [show (a : ℤ) % (b : ℤ) = ((a % b : ℕ) : ℤ) by push_cast; ring, Int.toNat_natCast]

/-- `scanStart` for a nonnegative cursor. -/
theorem scanStart_of_natCast (s : Servers) (cj : ℕ) (h : s.current = (cj : ℤ)) :
    s.scanStart = (cj + 1) % s.servers.length := by
  unfold Servers.scanStart
  rw [h, show (cj : ℤ) + 1 = ((cj + 1 : ℕ) : ℤ) by push_cast; ring]
  exact toNat_natCast_emod (cj + 1) s.servers.length

theorem stepId_eq_of_get_next (s : Servers) (id : Option String) (sv : Server) (s1 : Servers)
    (h : s.get_next id = some (sv, s1)) : stepId s id = s1 := by
  unfold stepId
  rw [h]

/-- `pyIdx` on an in-range nonnegative index. -/
theorem pyIdx_natCast (c n : ℕ) (h : c < n) : pyIdx (c : ℤ) n = some c := by
  unfold pyIdx
  rw [if_pos (Int.natCast_nonneg c), if_pos (by exact_mod_cast h), Int.toNat_natCast]

/-- The scan stops immediately when the starting server is below target. -/
theorem findFrom_head (l : List Server) (start fuel : ℕ) (hf : 0 < fuel)
    (hc : Frac.blt (l.getD start default).perc_current
        (l.getD start default).perc_target = true) :
    findFrom l start fuel = some start := by
  cases fuel with
  | zero => omega
  | succ fuel =>
    simp only [findFrom]
    rw [if_pos hc]

/-- The scan fails when no server is below target. -/
theorem findFrom_none_of_all (l : List Server) (fuel : ℕ)
    (hall : ∀ i, i < l.length → ¬ Frac.blt (l.getD i default).perc_current
        (l.getD i default).perc_target = true) :
    ∀ start, start < l.length → findFrom l start fuel = none := by
  induction fuel with
  | zero => intro start _; rfl
  | succ fuel ih =>
    intro start hs
    simp only [findFrom]
    rw [if_neg (hall start hs)]
    exact ih _ (Nat.mod_lt _ (by omega))

theorem cursor_succ_mod (n k j : ℕ) (hj : 1 ≤ j) :
    ((j - 1 + (n - k % n)) % n + 1) % n = (j + (n - k % n)) % n := by
  rw [Nat.mod_add_mod]
  congr 1
  omega

theorem start_plus_k_mod (n k j : ℕ) (hn : 0 < n) (hj : j < n) :
    ((j + (n - k % n)) % n + k) % n = j := by
  rw [Nat.mod_add_mod]
  obtain ⟨r, hrdef⟩ : ∃ r, k % n = r := ⟨_, rfl⟩
  obtain ⟨q, hqdef⟩ : ∃ q, n * (k / n) = q := ⟨_, rfl⟩
  have hr : r < n := hrdef ▸ Nat.mod_lt _ hn
  have hk : q + r = k := by
    rw [← hrdef, ← hqdef]
    exact Nat.div_add_mod k n
  rw [hrdef]
  have h2 : j + (n - r) + k = j + n * (1 + k / n) := by
    have h3 : n * (1 + k / n) = n + q := by
      rw [← hqdef]
      ring
    omega
  rw [h2, Nat.add_mul_mod_self_left, Nat.mod_eq_of_lt hj]

theorem mod_shift_inj (n i i2 k : ℕ) (hi : i < n) (hi2 : i2 < n)
    (h : (i + k) % n = (i2 + k) % n) : i = i2 := by
  have h2 : i ≡ i2 [MOD n] := Nat.ModEq.add_right_cancel' k h
  unfold Nat.ModEq at h2
  rw [Nat.mod_eq_of_lt hi, Nat.mod_eq_of_lt hi2] at h2
  exact h2

theorem cursor_block_end (n k : ℕ) (hn : 0 < n) :
    (n - 1 + (n - k % n)) % n = (n - (k + 1) % n) % n := by
  obtain ⟨r, hrdef⟩ : ∃ r, k % n = r := ⟨_, rfl⟩
  obtain ⟨q, hqdef⟩ : ∃ q, n * (k / n) = q := ⟨_, rfl⟩
  have hr : r < n := hrdef ▸ Nat.mod_lt _ hn
  have hk : q + r = k := by
    rw [← hrdef, ← hqdef]
    exact Nat.div_add_mod k n
  have hk1 : (k + 1) % n = (r + 1) % n := by
    conv_lhs => rw [show k + 1 = r + 1 + n * (k / n) by rw [hqdef]; omega]
    rw [Nat.add_mul_mod_self_left]
  rw [hrdef, hk1]
  by_cases hc : r + 1 = n
  · simp [hc, Nat.mod_self, show n - 1 + (n - r) = n by omega]
  · have hc2 : r + 1 < n := by omega
    rw [Nat.mod_eq_of_lt hc2, show n - 1 + (n - r) = n + (n - 1 - r) by omega,
      Nat.add_mod_left, Nat.mod_eq_of_lt (by omega), Nat.mod_eq_of_lt (by omega)]
    omega

theorem cursor_next_block_zero (n m : ℕ) (hn : 0 < n) :
    ((n - m % n) % n + m) % n = 0 := by
  rw [Nat.mod_add_mod]
  obtain ⟨r, hrdef⟩ : ∃ r, m % n = r := ⟨_, rfl⟩
  obtain ⟨q, hqdef⟩ : ∃ q, n * (m / n) = q := ⟨_, rfl⟩
  have hr : r < n := hrdef ▸ Nat.mod_lt _ hn
  have hk : q + r = m := by
    rw [← hrdef, ← hqdef]
    exact Nat.div_add_mod m n
  rw [hrdef]
  have h2 : n - r + m = n * (1 + m / n) := by
    have h3 : n * (1 + m / n) = n + q := by
      rw [← hqdef]
      ring
    omega
  rw [h2, Nat.mul_mod_right]

/-- The invariant of the equal-share run: after `k` full rounds plus `j`
calls of the current round (`1 ≤ j ≤ n`), every server's counter is `k`,
plus one for the `j` servers already served this round (a cyclic window
starting at `(n - k % n) % n`), the running total is `k·n + j`, and the
cursor sits at the window's last position. -/
def EqInv (n c k j : ℕ) (S : Servers) : Prop :=
  S.servers.length = n
  ∧ S.total = k * n + j
  ∧ (∀ i, i < n → (svAt S i).mails_sent = k + (if (i + k) % n < j then 1 else 0))
  ∧ S.current = (((j - 1 + (n - k % n)) % n : ℕ) : ℤ)
  ∧ (∀ i, i < n → (svAt S i).perc_target = ⟨c, n * c⟩)

/-- Under the equal-share invariant, a server is below target exactly when
its window bit makes its count-times-`n` fall below the total. -/
theorem EqInv_cond (n c k j : ℕ) (hn : 0 < n) (hc : 0 < c) (hj1 : 1 ≤ j)
    (S : Servers) (h : EqInv n c k j S) (i : ℕ) (hi : i < n) :
    (Frac.blt (svAt S.calc_perc i).perc_current (svAt S.calc_perc i).perc_target = true
      ↔ (k + (if (i + k) % n < j then 1 else 0)) * n < k * n + j) := by
  obtain ⟨hlen, htot, hcnt, hcur, htgt⟩ := h
  have hmpos : 0 < S.total := by
    rw [htot]
    omega
  have hpc := svAt_calc_perc_current_of_pos S hmpos i (by omega)
  have hpt := svAt_calc_perc_target S i
  unfold Frac.blt
  rw [decide_eq_true_eq, hpc, hpt, htgt i hi, hcnt i hi, htot]
  show (k + (if (i + k) % n < j then 1 else 0)) * (n * c) < c * (k * n + j) ↔ _
  rw [show (k + (if (i + k) % n < j then 1 else 0)) * (n * c)
      = ((k + (if (i + k) % n < j then 1 else 0)) * n) * c by ring,
    show c * (k * n + j) = (k * n + j) * c by ring]
  exact Nat.mul_lt_mul_right hc

/-- Within a round (`j < n`), the scan succeeds at the window's next
position and extends the window by one. -/
theorem EqInv_step_lt (n c k j : ℕ) (hn : 0 < n) (hc : 0 < c) (hj1 : 1 ≤ j) (hjn : j < n)
    (S : Servers) (h : EqInv n c k j S) : EqInv n c k (j + 1) (stepId S none) := by
  obtain ⟨hlen, htot, hcnt, hcur, htgt⟩ := h
  have hlen0 : ¬ S.servers.length = 0 := by omega
  obtain ⟨start, hstartdef⟩ : ∃ s2, (j + (n - k % n)) % n = s2 := ⟨_, rfl⟩
  have hstartlt : start < n := hstartdef ▸ Nat.mod_lt _ hn
  have hstartk : (start + k) % n = j := hstartdef ▸ start_plus_k_mod n k j hn hjn
  have hscanstart : S.scanStart = start := by
    rw [scanStart_of_natCast S _ hcur, hlen, cursor_succ_mod n k j hj1]
    exact hstartdef
  have hbstart : ¬ (start + k) % n < j := by
    rw [hstartk]
    omega
  have hcondstart : Frac.blt (svAt S.calc_perc start).perc_current
      (svAt S.calc_perc start).perc_target = true := by
    rw [EqInv_cond n c k j hn hc hj1 S ⟨hlen, htot, hcnt, hcur, htgt⟩ start hstartlt,
      if_neg hbstart, show (k + 0) * n = k * n by ring]
    omega
  have hfind : findFrom S.calc_perc.servers S.scanStart S.servers.length = some start := by
    rw [hscanstart]
    exact findFrom_head _ _ _ (by omega) hcondstart
  have hgn := get_next_none_scan S hlen0 start hfind
  rw [stepId_eq_of_get_next _ _ _ _ hgn]
  have hstartc : start < S.calc_perc.servers.length := by
    rw [calc_perc_length]
    omega
  refine ⟨?_, ?_, ?_, ?_, ?_⟩
  · show (S.calc_perc.servers.set start (bumpSent (svAt S.calc_perc start))).length = n
    rw [List.length_set, calc_perc_length, hlen]
  · show ((S.calc_perc.servers.set start
        (bumpSent (S.calc_perc.servers.getD start default))).map
        (fun sv => sv.mails_sent)).sum = k * n + (j + 1)
    rw [sum_mails_set_bump S.calc_perc.servers start hstartc,
      show (S.calc_perc.servers.map (fun sv => sv.mails_sent)).sum = S.total
        from total_calc_perc S, htot]
    ring
  · intro i hi
    show ((S.calc_perc.servers.set start (bumpSent (svAt S.calc_perc start))).getD
        i default).mails_sent = k + (if (i + k) % n < j + 1 then 1 else 0)
    by_cases hi2 : i = start
    · rw [hi2, getD_set_self _ hstartc]
      show (svAt S.calc_perc start).mails_sent + 1 = _
      rw [svAt_calc_perc_mails, hcnt start hstartlt, if_neg hbstart,
        if_pos (show (start + k) % n < j + 1 by rw [hstartk]; omega)]
    · rw [getD_set_ne _ (fun hcontra => hi2 hcontra.symm)]
      show (svAt S.calc_perc i).mails_sent = _
      rw [svAt_calc_perc_mails, hcnt i hi]
      have hne : (i + k) % n ≠ j := by
        intro hcontra
        exact hi2 (mod_shift_inj n i start k hi hstartlt (by rw [hcontra, hstartk]))
      by_cases hx : (i + k) % n < j
      · rw [if_pos hx, if_pos (by omega)]
      · rw [if_neg hx, if_neg (by omega)]
  · show ((start : ℕ) : ℤ) = (((j + 1 - 1 + (n - k % n)) % n : ℕ) : ℤ)
    rw [show j + 1 - 1 = j from rfl]
    exact_mod_cast hstartdef.symm
  · intro i hi
    show ((S.calc_perc.servers.set start (bumpSent (svAt S.calc_perc start))).getD
        i default).perc_target = ⟨c, n * c⟩
    by_cases hi2 : i = start
    · rw [hi2, getD_set_self _ hstartc]
      show (svAt S.calc_perc start).perc_target = _
      rw [svAt_calc_perc_target, htgt start hstartlt]
    · rw [getD_set_ne _ (fun hcontra => hi2 hcontra.symm)]
      show (svAt S.calc_perc i).perc_target = _
      rw [svAt_calc_perc_target, htgt i hi]

/-- At the end of a round (`j = n`) every fraction sits exactly at target:
the scan circles fruitlessly and the fallback bumps the server at the
stale cursor, which is precisely the start of the next round's window. -/
theorem EqInv_step_eq (n c k : ℕ) (hn : 0 < n) (hc : 0 < c)
    (S : Servers) (h : EqInv n c k n S) : EqInv n c (k + 1) 1 (stepId S none) := by
  obtain ⟨hlen, htot, hcnt, hcur, htgt⟩ := h
  have hlen0 : ¬ S.servers.length = 0 := by omega
  have hcnt1 : ∀ i, i < n → (svAt S i).mails_sent = k + 1 := by
    intro i hi
    rw [hcnt i hi, if_pos (Nat.mod_lt _ hn)]
  have hall : ∀ i, i < S.calc_perc.servers.length →
      ¬ Frac.blt (svAt S.calc_perc i).perc_current
        (svAt S.calc_perc i).perc_target = true := by
    intro i hi
    rw [calc_perc_length, hlen] at hi
    rw [EqInv_cond n c k n hn hc (by omega) S ⟨hlen, htot, hcnt, hcur, htgt⟩ i hi,
      if_pos (Nat.mod_lt _ hn), show (k + 1) * n = k * n + n by ring]
    omega
  obtain ⟨cj, hcjdef⟩ : ∃ x, (n - 1 + (n - k % n)) % n = x := ⟨_, rfl⟩
  have hcjlt : cj < n := hcjdef ▸ Nat.mod_lt _ hn
  have hcur2 : S.current = (cj : ℤ) := by
    rw [hcur]
    exact_mod_cast hcjdef
  have hscan : findFrom S.calc_perc.servers S.scanStart S.servers.length = none := by
    apply findFrom_none_of_all _ _ hall
    rw [calc_perc_length]
    exact scanStart_lt S hlen0
  have hpy : pyIdx S.current S.servers.length = some cj := by
    rw [hcur2, hlen]
    exact pyIdx_natCast cj n hcjlt
  have hgn := get_next_none_fallback S hlen0 cj hscan hpy
  rw [stepId_eq_of_get_next _ _ _ _ hgn]
  have hcjc : cj < S.calc_perc.servers.length := by
    rw [calc_perc_length]
    omega
  have hcj2 : cj = (n - (k + 1) % n) % n := by
    rw [← hcjdef]
    exact cursor_block_end n k hn
  have hczero : (cj + (k + 1)) % n = 0 := by
    rw [hcj2]
    exact cursor_next_block_zero n (k + 1) hn
  refine ⟨?_, ?_, ?_, ?_, ?_⟩
  · show (S.calc_perc.servers.set cj (bumpSent (svAt S.calc_perc cj))).length = n
    rw [List.length_set, calc_perc_length, hlen]
  · show ((S.calc_perc.servers.set cj
        (bumpSent (S.calc_perc.servers.getD cj default))).map
        (fun sv => sv.mails_sent)).sum = (k + 1) * n + 1
    rw [sum_mails_set_bump S.calc_perc.servers cj hcjc,
      show (S.calc_perc.servers.map (fun sv => sv.mails_sent)).sum = S.total
        from total_calc_perc S, htot]
    ring
  · intro i hi
    show ((S.calc_perc.servers.set cj (bumpSent (svAt S.calc_perc cj))).getD
        i default).mails_sent = (k + 1) + (if (i + (k + 1)) % n < 1 then 1 else 0)
    by_cases hi2 : i = cj
    · rw [hi2, getD_set_self _ hcjc]
      show (svAt S.calc_perc cj).mails_sent + 1 = _
      rw [svAt_calc_perc_mails, hcnt1 cj hcjlt, if_pos (by rw [hczero]; omega)]
    · rw [getD_set_ne _ (fun hcontra => hi2 hcontra.symm)]
      show (svAt S.calc_perc i).mails_sent = _
      rw [svAt_calc_perc_mails, hcnt1 i hi]
      have hni : ¬ (i + (k + 1)) % n < 1 := by
        intro hlt
        have hz : (i + (k + 1)) % n = 0 := by omega
        exact hi2 (mod_shift_inj n i cj (k + 1) hi hcjlt (by rw [hz, hczero]))
      rw [if_neg hni]
  · show S.current = (((1 - 1 + (n - (k + 1) % n)) % n : ℕ) : ℤ)
    rw [hcur2, hcj2]
    norm_num
  · intro i hi
    show ((S.calc_perc.servers.set cj (bumpSent (svAt S.calc_perc cj))).getD
        i default).perc_target = ⟨c, n * c⟩
    by_cases hi2 : i = cj
    · rw [hi2, getD_set_self _ hcjc]
      show (svAt S.calc_perc cj).perc_target = _
      rw [svAt_calc_perc_target, htgt cj hcjlt]
    · rw [getD_set_ne _ (fun hcontra => hi2 hcontra.symm)]
      show (svAt S.calc_perc i).perc_target = _
      rw [svAt_calc_perc_target, htgt i hi]

theorem calc_perc_of_total_zero (S : Servers) (h : S.total = 0) : S.calc_perc = S := by
  unfold Servers.calc_perc
  rw [if_neg (by omega)]

/-- The first call on a fresh equal-share registry establishes the
invariant: the stored zero fractions are below the positive target, so the
scan picks index 0. -/
theorem EqInv_base (n c : ℕ) (hn : 0 < n) (hc : 0 < c) (reg0 : Servers)
    (hlen0 : reg0.servers.length = n) (hcur0 : reg0.current = -1) (htot0 : reg0.total = 0)
    (hm0 : ∀ i, i < n → (svAt reg0 i).mails_sent = 0)
    (hp0 : ∀ i, i < n → (svAt reg0 i).perc_current = ⟨0, 1⟩)
    (ht0 : ∀ i, i < n → (svAt reg0 i).perc_target = ⟨c, n * c⟩) :
    EqInv n c 0 1 (stepId reg0 none) := by
  have hcp : reg0.calc_perc = reg0 := calc_perc_of_total_zero reg0 htot0
  have hlen2 : ¬ reg0.servers.length = 0 := by omega
  have hss : reg0.scanStart = 0 := by
    unfold Servers.scanStart
    rw [hcur0, show (-1 : ℤ) + 1 = 0 by ring, Int.zero_emod]
    rfl
  have hcond0 : Frac.blt (svAt reg0.calc_perc 0).perc_current
      (svAt reg0.calc_perc 0).perc_target = true := by
    rw [hcp, hp0 0 hn, ht0 0 hn]
    unfold Frac.blt
    rw [decide_eq_true_eq]
    show 0 * (n * c) < c * 1
    simpa using hc
  have hfind : findFrom reg0.calc_perc.servers reg0.scanStart reg0.servers.length
      = some 0 := by
    rw [hss]
    exact findFrom_head _ _ _ (by omega) hcond0
  have hgn := get_next_none_scan reg0 hlen2 0 hfind
  rw [stepId_eq_of_get_next _ _ _ _ hgn]
  have h0c : 0 < reg0.calc_perc.servers.length := by
    rw [calc_perc_length]
    omega
  refine ⟨?_, ?_, ?_, ?_, ?_⟩
  · show (reg0.calc_perc.servers.set 0 (bumpSent (svAt reg0.calc_perc 0))).length = n
    rw [List.length_set, calc_perc_length, hlen0]
  · show ((reg0.calc_perc.servers.set 0
        (bumpSent (reg0.calc_perc.servers.getD 0 default))).map
        (fun sv => sv.mails_sent)).sum = 0 * n + 1
    rw [sum_mails_set_bump reg0.calc_perc.servers 0 h0c,
      show (reg0.calc_perc.servers.map (fun sv => sv.mails_sent)).sum = reg0.total
        from total_calc_perc reg0, htot0]
    ring
  · intro i hi
    show ((reg0.calc_perc.servers.set 0 (bumpSent (svAt reg0.calc_perc 0))).getD
        i default).mails_sent = 0 + (if (i + 0) % n < 1 then 1 else 0)
    by_cases hi0 : i = 0
    · rw [hi0, getD_set_self _ h0c]
      show (svAt reg0.calc_perc 0).mails_sent + 1 = _
      rw [hcp, hm0 0 hn, if_pos (by simp [hn])]
    · rw [getD_set_ne _ (fun hcontra => hi0 hcontra.symm)]
      show (svAt reg0.calc_perc i).mails_sent = _
      rw [hcp, hm0 i hi]
      have hni : ¬ (i + 0) % n < 1 := by
        rw [Nat.add_zero, Nat.mod_eq_of_lt hi]
        omega
      rw [if_neg hni]
  · show ((0 : ℕ) : ℤ) = (((1 - 1 + (n - 0 % n)) % n : ℕ) : ℤ)
    norm_num
  · intro i hi
    show ((reg0.calc_perc.servers.set 0 (bumpSent (svAt reg0.calc_perc 0))).getD
        i default).perc_target = ⟨c, n * c⟩
    by_cases hi0 : i = 0
    · rw [hi0, getD_set_self _ h0c]
      show (svAt reg0.calc_perc 0).perc_target = _
      rw [hcp, ht0 0 hn]
    · rw [getD_set_ne _ (fun hcontra => hi0 hcontra.symm)]
      show (svAt reg0.calc_perc i).perc_target = _
      rw [hcp, ht0 i hi]

/-- After `m ≥ 1` unpinned calls the equal-share invariant holds for the
round decomposition `m = k·n + j`, `1 ≤ j ≤ n`. -/
theorem EqInv_reach (n c : ℕ) (hn : 0 < n) (hc : 0 < c) (reg0 : Servers)
    (hbase : EqInv n c 0 1 (stepId reg0 none)) :
    ∀ m, 1 ≤ m → ∃ k j, m = k * n + j ∧ 1 ≤ j ∧ j ≤ n ∧ EqInv n c k j (iterU reg0 m) := by
  intro m
  induction m with
  | zero => intro h; omega
  | succ m ih =>
    intro _
    by_cases hm : 1 ≤ m
    · obtain ⟨k, j, hmeq, hj1, hjn, hinv⟩ := ih hm
      by_cases hjlt : j < n
      · exact ⟨k, j + 1, by omega, by omega, by omega,
          EqInv_step_lt n c k j hn hc hj1 hjlt _ hinv⟩
      · have hj : j = n := by omega
        refine ⟨k + 1, 1, ?_, by omega, by omega, ?_⟩
        · rw [hmeq, hj]
          ring
        · rw [hj] at hinv
          exact EqInv_step_eq n c k hn hc _ hinv
    · have hm0 : m = 0 := by omega
      subst hm0
      exact ⟨0, 1, by simp, by omega, by omega, hbase⟩

theorem sum_map_const_shares (l : List (String × String)) (c : ℕ) :
    ((l.map (fun p => (p.1, p.2, c))).map (fun p => p.2.2)).sum = l.length * c := by
  rw [List.map_map]
  show (l.map (fun _ => c)).sum = l.length * c
  induction l with
  | nil => simp
  | cons a tl ih =>
    simp only [List.map_cons, List.sum_cons, List.length_cons, ih]
    ring

/-- C5: on a registry of `n ≥ 1` servers all configured with the same
positive share, after exactly `K·n` consecutive unpinned `get_next` calls
from the freshly built state, every server's `mails_sent` equals exactly
`K`. -/
theorem C5_equal_share_counts (l : List (String × String)) (c : ℕ) (reg0 : Servers)
    (hc : 0 < c) (hl : l ≠ [])
    (hinit : Servers.init (l.map (fun p => (p.1, p.2, c))) = .ok reg0) (K : ℕ) :
    ∀ sv ∈ (iterU reg0 (K * l.length)).servers, sv.mails_sent = K := by
  have hn : 0 < l.length := List.length_pos.mpr hl
  simp only [Servers.init] at hinit
  have hcne : ¬ ((l.map (fun p => (p.1, p.2, c))).length ≠ 0
      ∧ ((l.map (fun p => (p.1, p.2, c))).map (fun p => p.2.2)).sum = 0) := by
    rintro ⟨h1, h2⟩
    rw [sum_map_const_shares l c] at h2
    rcases Nat.mul_eq_zero.mp h2 with h3 | h3 <;> omega
  rw [if_neg hcne, sum_map_const_shares l c] at hinit
  injection hinit with h2
  have hlen0 : reg0.servers.length = l.length := by
    rw [← h2]
    simp
  have hcur0 : reg0.current = -1 := by rw [← h2]
  have htot0 : reg0.total = 0 := by
    rw [← h2]
    unfold Servers.total
    apply List.sum_eq_zero
    intro x hx
    simp only [List.map_map, List.mem_map] at hx
    obtain ⟨p, hp, hxeq⟩ := hx
    rw [← hxeq]
    rfl
  have hfld : ∀ i, i < l.length →
      (svAt reg0 i).mails_sent = 0 ∧ (svAt reg0 i).perc_current = ⟨0, 1⟩
      ∧ (svAt reg0 i).perc_target = ⟨c, l.length * c⟩ := by
    intro i hi
    rw [← h2]
    unfold svAt
    rw [List.getD_eq_getElem?_getD, List.getElem?_map, List.getElem?_map,
      List.getElem?_eq_getElem hi]
    exact ⟨rfl, rfl, rfl⟩
  have hbase := EqInv_base l.length c hn hc reg0 hlen0 hcur0 htot0
    (fun i hi => (hfld i hi).1) (fun i hi => (hfld i hi).2.1) (fun i hi => (hfld i hi).2.2)
  cases K with
  | zero =>
    intro sv hsv
    rw [Nat.zero_mul] at hsv
    have hsv2 : sv ∈ reg0.servers := hsv
    obtain ⟨i, hi, hieq⟩ := List.mem_iff_getElem.mp hsv2
    have h3 := (hfld i (by rw [← hlen0]; exact hi)).1
    unfold svAt at h3
    rw [List.getD_eq_getElem _ _ hi] at h3
    rw [← hieq]
    exact h3
  | succ K0 =>
    have hm1 : 1 ≤ (K0 + 1) * l.length := Nat.mul_pos (by omega) hn
    obtain ⟨k, j, hmeq, hj1, hjn, hinv⟩ :=
      EqInv_reach l.length c hn hc reg0 hbase ((K0 + 1) * l.length) hm1
    have hkK : k ≤ K0 := by
      by_contra hgt
      push_neg at hgt
      have h3 : (K0 + 1) * l.length ≤ k * l.length := Nat.mul_le_mul_right _ (by omega)
      omega
    have hjval : j = (K0 - k + 1) * l.length := by
      have h3 : (K0 + 1) * l.length = k * l.length + (K0 - k + 1) * l.length := by
        rw [← Nat.add_mul]
        congr 1
        omega
      omega
    have hKk : K0 - k + 1 = 1 := by
      by_contra hne
      have h4 : 2 ≤ K0 - k + 1 := by omega
      have h5 : 2 * l.length ≤ (K0 - k + 1) * l.length := Nat.mul_le_mul_right _ h4
      omega
    have hkeq : k = K0 := by omega
    have hjeq : j = l.length := by rw [hjval, hKk, one_mul]
    obtain ⟨hlenS, htotS, hcntS, hcurS, htgtS⟩ := hinv
    intro sv hsv
    obtain ⟨i, hi, hieq⟩ := List.mem_iff_getElem.mp hsv
    have hin : i < l.length := by rw [← hlenS]; exact hi
    have hcnt := hcntS i hin
    rw [hkeq, hjeq, if_pos (Nat.mod_lt _ hn)] at hcnt
    unfold svAt at hcnt
    rw [List.getD_eq_getElem _ _ hi] at hcnt
    rw [← hieq]
    exact hcnt

/-- C5 witness at a concrete input. -/
theorem C5_witness :
    ((iterU regAB (2 * 2)).servers.getD 0 default).mails_sent = 2
    ∧ ((iterU regAB (2 * 2)).servers.getD 1 default).mails_sent = 2 := by
  have h := C5_equal_share_counts [("a", "ra"), ("b", "rb")] 1 regAB (by omega) (by decide)
    rfl 2
  exact ⟨h _ (by decide), h _ (by decide)⟩
